import Mathlib

/-!
Verification of the getopts command-line parser (src/getopts/option.go).

Go strings are byte slices and the parser indexes them byte by byte; since
every constant the parser compares against is ASCII, a token is modelled as a
list of characters (`Str`).  Flags and Options are heap objects mutated
through pointers in Go; here they live in indexed lists inside a parse state
(`PState`), and the registry maps short and long names to an index tagged
with the entity's kind (`Handle`), mirroring the `parameter` interface whose
only capability is `takesArgument`.  User callbacks (`OnTrue`, `OnFalse`,
`Action`) do not influence the parser state and are omitted; the `OnRestArg`
filter does influence the result and is threaded explicitly as an optional
function, mirroring the nilable package-level variable.
-/

set_option maxRecDepth 4000

namespace Getopts

/-- A token or stored string: the bytes of a Go string, as characters. -/
abbrev Str := List Char

/-- Rest struct: a positional argument and whether it came after the
terminator, from src/getopts/option.go lines 25-30. -/
structure Rest where
  Argument : Str
  AfterDashes : Bool
  deriving DecidableEq, Inhabited

/-- Mutable state of a Flag: last boolean value (Passed) and net count,
from the Flag struct (lines 51-62); callbacks omitted. -/
structure FlagState where
  Passed : Bool
  Count : Int
  deriving DecidableEq, Inhabited

/-- Mutable state of an Option: most recent value, full history, and the
was-passed bit, from the Option struct (lines 34-47); Action omitted. -/
structure OptionState where
  OptArg : Str
  OptArgs : List Str
  Passed : Bool
  deriving DecidableEq, Inhabited

/-- A freshly declared Flag (zero value of the Go struct). -/
def FlagState.new : FlagState := { Passed := false, Count := 0 }

/-- A freshly declared Option (zero value of the Go struct). -/
def OptionState.new : OptionState := { OptArg := [], OptArgs := [], Passed := false }

/-- Flag.takeValue (lines 74-86): adjust the count by the sign of the value
and record the value as the current boolean state. -/
def FlagState.takeValue (f : FlagState) (value : Bool) : FlagState :=
  { Passed := value, Count := if value then f.Count + 1 else f.Count - 1 }

/-- Option.addOptArg (lines 123-130): append to the history, overwrite the
most recent slot, and mark the option as passed. -/
def OptionState.addOptArg (o : OptionState) (arg : Str) : OptionState :=
  { OptArg := arg, OptArgs := o.OptArgs ++ [arg], Passed := true }

/-- A registry handle: index of a declared entity, tagged flag or option.
Plays the role of the `parameter` interface value. -/
inductive Handle where
  | flagH (i : Nat)
  | optH (i : Nat)
  deriving DecidableEq, Inhabited

/-- parameter.takesArgument (lines 90-98): options take an argument,
flags do not. -/
def Handle.takesArgument : Handle → Bool
  | .flagH _ => false
  | .optH _ => true

/-- The two lookup tables paramsByShort and paramsByLong (lines 137-139),
as association lists. -/
structure Registry where
  byShort : List (Char × Handle)
  byLong : List (Str × Handle)
  deriving Inhabited

/-- Lookup in paramsByShort. -/
def lookupShort (reg : Registry) (c : Char) : Option Handle :=
  reg.byShort.lookup c

/-- Lookup in paramsByLong. -/
def lookupLong (reg : Registry) (l : Str) : Option Handle :=
  reg.byLong.lookup l

/-- Error values of ArgParse, from the error format constants
(lines 289-294). -/
inductive Err where
  | unrecognizedShort (c : Char)
  | unrecognizedLong (l : Str)
  | triedToNegateOptArg (c : Char)
  | passedOptargToFlag (l : Str)
  deriving DecidableEq, Inhabited

/-- The state a parse mutates: the declared flags, the declared options,
and the accumulated rest arguments. -/
structure PState where
  flags : List FlagState
  opts : List OptionState
  rest : List Rest
  deriving DecidableEq, Inhabited

/-- Deliver a boolean to the flag at index i (the effect of
p.(*Flag).takeValue(v) through the registry pointer). -/
def updateFlag (st : PState) (i : Nat) (v : Bool) : PState :=
  { st with flags := st.flags.set i ((st.flags.getD i FlagState.new).takeValue v) }

/-- Deliver a string value to the option at index i (the effect of
p.(*Option).addOptArg(arg) through the registry pointer). -/
def deliverOpt (st : PState) (i : Nat) (arg : Str) : PState :=
  { st with opts := st.opts.set i ((st.opts.getD i OptionState.new).addOptArg arg) }

/-- addRest (lines 104-119): if OnRestArg is set, append the entry only when
the callback returns true; otherwise always append. -/
def addRest (onRestArg : Option (Str → Bool → Bool)) (rest : List Rest)
    (arg : Str) (dash : Bool) : List Rest :=
  match onRestArg with
  | some f =>
    if f arg dash then rest ++ [{ Argument := arg, AfterDashes := dash }] else rest
  | none => rest ++ [{ Argument := arg, AfterDashes := dash }]

/-- addRest lifted to the parse state. -/
def stAddRest (onRestArg : Option (Str → Bool → Bool)) (st : PState)
    (arg : Str) (dash : Bool) : PState :=
  { st with rest := addRest onRestArg st.rest arg dash }

/-- strings.EqualFold restricted to the ASCII data the parser compares. -/
def eqFold (a b : Str) : Bool :=
  a.map Char.toLower == b.map Char.toLower

/-- parseFlagOpt (lines 151-177): recognise the boolean spellings
case-insensitively, in the source's comparison order, otherwise fail
naming the long option. -/
def parseFlagOpt (flag value : Str) : Except Err Bool :=
  if eqFold value ['f'] then .ok false
  else if eqFold value ['t'] then .ok true
  else if eqFold value ['y'] then .ok true
  else if eqFold value ['n'] then .ok false
  else if eqFold value ['n', 'o'] then .ok false
  else if eqFold value ['y', 'e', 's'] then .ok true
  else if eqFold value ['t', 'r', 'u', 'e'] then .ok true
  else if eqFold value ['f', 'a', 'l', 's', 'e'] then .ok false
  else .error (.passedOptargToFlag flag)

/-- Splitting of a long token at its first '=':
strings.IndexByte(arg, '=') followed by the slices arg[2:k] and arg[k+1:]
(lines 353, 367-368), applied to the part of the token after the leading
"--" (the leading dashes are never '='), returning none when the token has
no '='. -/
def splitAtEq : Str → Option (Str × Str)
  | [] => none
  | c :: cs =>
    if c = '=' then some ([], cs)
    else
      match splitAtEq cs with
      | some p => some (c :: p.1, p.2)
      | none => none

/-- Result of processing one token: abort with an error, terminate the whole
parse (the "--" token), or continue, possibly with an option index awaiting
its value (waiting_opt plus expect_optarg, lines 300-301). -/
inductive StepRes where
  | err (e : Err) (st : PState)
  | done (st : PState)
  | cont (st : PState) (waiting : Option Nat)
  deriving DecidableEq, Inhabited

/-- The clump loop (lines 386-405), scanning the characters of the token
after the leading '-'.  A flag is set true and scanning continues; an
unknown character aborts; an option that is the last character is left
awaiting its value, while an option that is not the last character is
delivered arg[j:] (the suffix of the token from the option character on,
exactly as the source slices it) and scanning stops. -/
def clumpScan (reg : Registry) : Str → PState → StepRes
  | [], st => .cont st none
  | c :: cs, st =>
    match lookupShort reg c with
    | some (.optH i) =>
      if cs.isEmpty then .cont st (some i)
      else .cont (deliverOpt st i (c :: cs)) none
    | some (.flagH i) => clumpScan reg cs (updateFlag st i true)
    | none => .err (.unrecognizedShort c) st

/-- The negated clump loop (lines 409-419), scanning after the leading '+':
a flag is delivered false, an option aborts with the negation error, an
unknown character aborts with the unrecognized-short error. -/
def negScan (reg : Registry) : Str → PState → StepRes
  | [], st => .cont st none
  | c :: cs, st =>
    match lookupShort reg c with
    | some (.optH _) => .err (.triedToNegateOptArg c) st
    | some (.flagH i) => negScan reg cs (updateFlag st i false)
    | none => .err (.unrecognizedShort c) st

/-- Classification of one token when no option is awaiting a value: the body
of the switch on len(arg) (lines 310-424).  Length 0 is ignored; length 1 is
a rest argument; length 2 distinguishes "--", -x, +x and rest; length at
least 3 distinguishes long options (with and without '='), clumps, negated
clumps and rest. -/
def stepToken (reg : Registry) (onRestArg : Option (Str → Bool → Bool))
    (st : PState) : Str → StepRes
  | [] => .cont st none
  | [c] => .cont (stAddRest onRestArg st [c] false) none
  | [a, b] =>
    if a = '-' ∧ b = '-' then .done st
    else if a = '-' then
      match lookupShort reg b with
      | some (.optH i) => .cont st (some i)
      | some (.flagH i) => .cont (updateFlag st i true) none
      | none => .err (.unrecognizedShort b) st
    else if a = '+' then
      match lookupShort reg b with
      | some (.optH _) => .err (.triedToNegateOptArg b) st
      | some (.flagH i) => .cont (updateFlag st i false) none
      | none => .err (.unrecognizedShort b) st
    else .cont (stAddRest onRestArg st [a, b] false) none
  | a :: b :: c :: cs =>
    if a = '-' then
      if b = '-' then
        match splitAtEq (c :: cs) with
        | none =>
          match lookupLong reg (c :: cs) with
          | some (.optH i) => .cont st (some i)
          | some (.flagH i) => .cont (updateFlag st i true) none
          | none => .err (.unrecognizedLong (c :: cs)) st
        | some lv =>
          match lookupLong reg lv.1 with
          | some (.optH i) => .cont (deliverOpt st i lv.2) none
          | some (.flagH i) =>
            match parseFlagOpt lv.1 lv.2 with
            | .ok v => .cont (updateFlag st i v) none
            | .error e => .err e st
          | none => .err (.unrecognizedLong lv.1) st
      else clumpScan reg (b :: c :: cs) st
    else if a = '+' then negScan reg (b :: c :: cs) st
    else .cont (stAddRest onRestArg st (a :: b :: c :: cs) false) none

/-- The main loop of ArgParse (lines 302-425): a pending option consumes the
whole next token; otherwise the token is classified, an error aborts the
parse with the rest accumulated so far, the terminator appends every
remaining token as an after-dashes rest entry and returns, and otherwise
the loop continues with the new state. -/
def argParseAux (reg : Registry) (onRestArg : Option (Str → Bool → Bool)) :
    List Str → Option Nat → PState → PState × Option Err
  | [], _, st => (st, none)
  | arg :: args, some oi, st =>
    argParseAux reg onRestArg args none (deliverOpt st oi arg)
  | arg :: args, none, st =>
    match stepToken reg onRestArg st arg with
    | .err e st2 => (st2, some e)
    | .done st2 => (args.foldl (fun s a => stAddRest onRestArg s a true) st2, none)
    | .cont st2 w => argParseAux reg onRestArg args w st2

/-- ArgParse (lines 296-428): skip argv[0] and run the loop with no pending
option and an empty waiting state. -/
def ArgParse (reg : Registry) (onRestArg : Option (Str → Bool → Bool))
    (st : PState) (argv : List Str) : PState × Option Err :=
  argParseAux reg onRestArg (argv.drop 1) none st

/-- The spellings parseFlagOpt maps to true. -/
def trueSpellings : List Str :=
  [['t'], ['y'], ['y', 'e', 's'], ['t', 'r', 'u', 'e']]

/-- The spellings parseFlagOpt maps to false. -/
def falseSpellings : List Str :=
  [['f'], ['n'], ['n', 'o'], ['f', 'a', 'l', 's', 'e']]

/-- Deliver false to every flag among the given clump characters, in order
(the accumulated effect of a prefix of a negated clump). -/
def applyNegAll (reg : Registry) (st : PState) (cs : Str) : PState :=
  cs.foldl
    (fun s c =>
      match lookupShort reg c with
      | some (.flagH i) => updateFlag s i false
      | _ => s) st

/-- A registry declaring one Flag with short name v and long name verbose. -/
def regV : Registry :=
  { byShort := [('v', .flagH 0)],
    byLong := [(['v', 'e', 'r', 'b', 'o', 's', 'e'], .flagH 0)] }

/-- Parse state matching regV: one fresh flag. -/
def stV : PState := { flags := [FlagState.new], opts := [], rest := [] }

/-- A registry declaring one Option with short name f and long name file. -/
def regF : Registry :=
  { byShort := [('f', .optH 0)],
    byLong := [(['f', 'i', 'l', 'e'], .optH 0)] }

/-- Parse state matching regF: one fresh option. -/
def stF : PState := { flags := [], opts := [OptionState.new], rest := [] }

/-- An empty registry. -/
def regNone : Registry := { byShort := [], byLong := [] }

/-- Parse state with nothing declared. -/
def stNone : PState := { flags := [], opts := [], rest := [] }

/-- Delivering to a flag leaves the rest list unchanged. -/
@[simp] theorem updateFlag_rest (st : PState) (i : Nat) (v : Bool) :
    (updateFlag st i v).rest = st.rest := rfl

/-- Delivering to an option leaves the rest list unchanged. -/
@[simp] theorem deliverOpt_rest (st : PState) (i : Nat) (a : Str) :
    (deliverOpt st i a).rest = st.rest := rfl

/-- With no OnRestArg callback, folding stAddRest over a token list appends
all of them, tagged, in order. -/
theorem foldl_stAddRest_none (args : List Str) (st : PState) :
    args.foldl (fun s a => stAddRest none s a true) st =
      { st with
        rest := st.rest ++ args.map (fun a => { Argument := a, AfterDashes := true }) } := by
  induction args generalizing st with
  | nil => simp
  | cons a args ih =>
    rw [List.foldl_cons, ih]
    simp [stAddRest, addRest]

/-- C1: the claim says a clump character at position j resolving to an
argument-taking Option receives the remainder of the token starting at
position j+1, the option character excluded.  The code (option.go line 392)
delivers arg[j:], which still contains the option character: for the input
["prog", "-fxy"] with f an argument-taking option, the delivered value is
"fxy", not the "xy" the claim (and the package documentation, which says
-ffile.txt passes file.txt like -f file.txt does) requires.  The parse does
succeed, so the later characters x and y — undeclared — were indeed not
interpreted as further options. -/
theorem c1_clump_inline_value_keeps_option_char :
    (ArgParse regF none stF [['p'], ['-', 'f', 'x', 'y']]).2 = none ∧
    ((ArgParse regF none stF [['p'], ['-', 'f', 'x', 'y']]).1.opts.getD 0
        OptionState.new).OptArg = ['f', 'x', 'y'] ∧
    ['f', 'x', 'y'] ≠ ['x', 'y'] := by
  decide

/-- C2: encountering the token "--" with no option awaiting a value appends
every remaining token, in order, as a Rest entry with AfterDashes true, the
parse returns with no error, and the flags and options are untouched — the
registry is arbitrary and never consulted, so no later token is interpreted
as a flag or option whatever its shape.  OnRestArg is nil, its default. -/
theorem c2_terminator_collects_remaining (reg : Registry) (st : PState)
    (args : List Str) :
    argParseAux reg none (['-', '-'] :: args) none st =
      ({ st with
         rest := st.rest ++ args.map (fun a => { Argument := a, AfterDashes := true }) },
       none) := by
  have h : stepToken reg none st ['-', '-'] = .done st := by
    simp [stepToken]
  simp [argParseAux, h, foldl_stAddRest_none]

/-- C3: with an option awaiting its value, the whole next token — whatever
its shape — is delivered as that option's value (appended to its history,
overwriting its most recent slot, setting its passed bit) and the loop
continues with no pending option; the pending state holds at most one option
index by construction.  Concretely, with f an argument-taking option, the
input ["p", "-f", "--"] delivers the token "--" itself as f's value: the
parse succeeds and no terminator processing occurs. -/
theorem c3_pending_option_consumes_token (reg : Registry)
    (onRest : Option (Str → Bool → Bool)) (arg : Str) (args : List Str)
    (oi : Nat) (st : PState) :
    (argParseAux reg onRest (arg :: args) (some oi) st =
      argParseAux reg onRest args none
        { st with
          opts := st.opts.set oi
            { OptArg := arg,
              OptArgs := (st.opts.getD oi OptionState.new).OptArgs ++ [arg],
              Passed := true } }) ∧
    (ArgParse regF none stF [['p'], ['-', 'f'], ['-', '-']]).2 = none ∧
    ((ArgParse regF none stF [['p'], ['-', 'f'], ['-', '-']]).1.opts.getD 0
        OptionState.new).OptArg = ['-', '-'] ∧
    (ArgParse regF none stF [['p'], ['-', 'f'], ['-', '-']]).1.rest = [] := by
  exact ⟨rfl, by decide, by decide, by decide⟩

/-- C9: when the input ends while an option is still awaiting its value, the
loop simply terminates: the parse returns the state unchanged with no error.
Concretely, ["prog", "-f"] with f an argument-taking option returns
successfully and leaves f's history, most recent value and passed bit at
their initial values. -/
theorem c9_eof_while_awaiting_is_silent (reg : Registry)
    (onRest : Option (Str → Bool → Bool)) (oi : Nat) (st : PState) :
    argParseAux reg onRest [] (some oi) st = (st, none) ∧
    ArgParse regF none stF [['p'], ['-', 'f']] = (stF, none) :=
  ⟨rfl, by decide⟩

/-- C10: with OnRestArg nil every positional argument is appended to the
rest list; with OnRestArg set, the callback receives the argument and its
after-terminator tag and the entry is appended exactly when it returns true,
so a callback can silently drop positional arguments.  Concretely, a
constantly-false callback leaves the rest list empty for the input
["p", "hi", "--", "-q"] whose positionals "hi" (before the terminator) and
"-q" (after it) are both filtered out, while the nil callback keeps both,
tagged and in order. -/
theorem c10_onRestArg_filters (rest : List Rest) (arg : Str) (b : Bool)
    (f : Str → Bool → Bool) :
    addRest none rest arg b = rest ++ [{ Argument := arg, AfterDashes := b }] ∧
    addRest (some f) rest arg b =
      (if f arg b then rest ++ [{ Argument := arg, AfterDashes := b }] else rest) ∧
    ArgParse regNone (some (fun _ _ => false)) stNone
      [['p'], ['h', 'i'], ['-', '-'], ['-', 'q']] = (stNone, none) ∧
    ArgParse regNone none stNone [['p'], ['h', 'i'], ['-', '-'], ['-', 'q']] =
      ({ stNone with
         rest := [{ Argument := ['h', 'i'], AfterDashes := false },
                  { Argument := ['-', 'q'], AfterDashes := true }] }, none) := by
  refine ⟨rfl, rfl, by decide, by decide⟩

/-- Taking the head off a list shifts the default of a last-element lookup:
the head only matters when the tail is empty. -/
theorem getLast?_getD_cons {α : Type} (l : List α) (a d : α) :
    (a :: l).getLast?.getD d = l.getLast?.getD a := by
  cases l with
  | nil => simp
  | cons e es =>
    rw [List.getLast?_cons_cons]
    obtain ⟨x, hx⟩ :=
      Option.isSome_iff_exists.mp
        (List.getLast?_isSome.mpr (List.cons_ne_nil e es))
    rw [hx]
    simp

/-- Folding takeValue over a delivery list adds the number of true
deliveries and subtracts the number of false deliveries, and leaves the last
delivered value as the boolean state. -/
theorem foldl_takeValue (ds : List Bool) (f : FlagState) :
    ((ds.foldl FlagState.takeValue f).Count =
      f.Count + (ds.count true : Int) - (ds.count false : Int)) ∧
    (ds.foldl FlagState.takeValue f).Passed = ds.getLast?.getD f.Passed := by
  induction ds generalizing f with
  | nil => simp
  | cons d ds ih =>
    obtain ⟨h1, h2⟩ := ih (f.takeValue d)
    constructor
    · rw [List.foldl_cons, h1]
      cases d <;> simp [FlagState.takeValue, List.count_cons] <;> omega
    · rw [List.foldl_cons, h2, getLast?_getD_cons]
      rfl

/-- C5: a flag's count after any delivery sequence is the number of true
deliveries minus the number of false deliveries since creation (an integer,
unbounded and possibly negative), and its boolean state is the last
delivered value (false, the zero value, when nothing was delivered).
Moreover a token -X whose character resolves to a declared flag delivers
true (count +1 via takeValue) and +X delivers false (count -1). -/
theorem c5_flag_count_algebra (ds : List Bool) (reg : Registry)
    (onRest : Option (Str → Bool → Bool)) (st : PState) (c : Char) (i : Nat) :
    ((ds.foldl FlagState.takeValue FlagState.new).Count =
       (ds.count true : Int) - (ds.count false : Int) ∧
     (ds.foldl FlagState.takeValue FlagState.new).Passed = ds.getLast?.getD false) ∧
    (lookupShort reg c = some (.flagH i) → c ≠ '-' →
      stepToken reg onRest st ['-', c] = .cont (updateFlag st i true) none ∧
      stepToken reg onRest st ['+', c] = .cont (updateFlag st i false) none) := by
  constructor
  · have h := foldl_takeValue ds FlagState.new
    simpa [FlagState.new] using h
  · intro hl hc
    refine ⟨?_, ?_⟩
    · simp [stepToken, hl, hc]
    · simp [stepToken, hl]

/-- Witness for C5 at the concrete registry declaring flag v. -/
theorem c5_flag_count_algebra_witness :
    stepToken regV none stV ['-', 'v'] = .cont (updateFlag stV 0 true) none ∧
    stepToken regV none stV ['+', 'v'] = .cont (updateFlag stV 0 false) none :=
  (c5_flag_count_algebra [] regV none stV 'v' 0).2 (by decide) (by decide)

/-- Folding addOptArg over a value list appends all values to the history in
order, leaves the last value in the most recent slot, and marks the option
passed as soon as one value arrived. -/
theorem foldl_addOptArg (vs : List Str) (o : OptionState) :
    ((vs.foldl OptionState.addOptArg o).OptArgs = o.OptArgs ++ vs) ∧
    (vs.foldl OptionState.addOptArg o).OptArg = vs.getLast?.getD o.OptArg ∧
    (vs.foldl OptionState.addOptArg o).Passed = (o.Passed || !vs.isEmpty) := by
  induction vs generalizing o with
  | nil => simp
  | cons v vs ih =>
    obtain ⟨h1, h2, h3⟩ := ih (o.addOptArg v)
    refine ⟨?_, ?_, ?_⟩
    · rw [List.foldl_cons, h1]; simp [OptionState.addOptArg]
    · rw [List.foldl_cons, h2, getLast?_getD_cons]; rfl
    · rw [List.foldl_cons, h3]; simp [OptionState.addOptArg]

/-- C6: every value delivered to an option is appended to its history and
simultaneously overwrites its most recent slot, and the passed bit is set;
after any delivery sequence from creation the history is exactly the
delivered sequence (duplicates and order preserved), the most recent slot is
the last delivery, and the history is non-empty whenever the option was
passed.  Concretely, deliveries "a" then "b" — also when produced by
parsing ["p", "-f", "a", "-f", "b"] — leave OptArg = "b" and
OptArgs = ["a", "b"]. -/
theorem c6_option_history_accumulates (vs : List Str) :
    ((vs.foldl OptionState.addOptArg OptionState.new).OptArgs = vs ∧
     (vs.foldl OptionState.addOptArg OptionState.new).OptArg = vs.getLast?.getD [] ∧
     (vs.foldl OptionState.addOptArg OptionState.new).Passed = !vs.isEmpty) ∧
    ((vs.foldl OptionState.addOptArg OptionState.new).Passed = true →
      (vs.foldl OptionState.addOptArg OptionState.new).OptArgs ≠ []) ∧
    ([['a'], ['b']].foldl OptionState.addOptArg OptionState.new).OptArg = ['b'] ∧
    ([['a'], ['b']].foldl OptionState.addOptArg OptionState.new).OptArgs
      = [['a'], ['b']] ∧
    ((ArgParse regF none stF
        [['p'], ['-', 'f'], ['a'], ['-', 'f'], ['b']]).1.opts.getD 0
        OptionState.new).OptArg = ['b'] ∧
    ((ArgParse regF none stF
        [['p'], ['-', 'f'], ['a'], ['-', 'f'], ['b']]).1.opts.getD 0
        OptionState.new).OptArgs = [['a'], ['b']] := by
  obtain ⟨h1, h2, h3⟩ := foldl_addOptArg vs OptionState.new
  refine ⟨⟨?_, ?_, ?_⟩, ?_, by decide, by decide, by decide, by decide⟩
  · simpa [OptionState.new] using h1
  · simpa [OptionState.new] using h2
  · simpa [OptionState.new] using h3
  · intro hp
    have hne : vs ≠ [] := by
      intro hnil
      subst hnil
      simp [OptionState.new] at hp
    rw [h1]
    simpa [OptionState.new] using hne

/-- Witness for C6's passed-implies-nonempty-history conjunct at a concrete
delivery sequence. -/
theorem c6_option_history_accumulates_witness :
    ([['a']].foldl OptionState.addOptArg OptionState.new).OptArgs ≠ [] :=
  (c6_option_history_accumulates [['a']]).2.1 (by decide)

/-- A clump abort hands back a state whose rest list is the one the clump
started from: no clump character adds a rest entry. -/
theorem clumpScan_err_rest (reg : Registry) :
    ∀ (cs : Str) (st : PState) (e : Err) (st2 : PState),
      clumpScan reg cs st = .err e st2 → st2.rest = st.rest := by
  intro cs
  induction cs with
  | nil =>
    intro st e st2 h
    exact StepRes.noConfusion h
  | cons c cs ih =>
    intro st e st2 h
    simp only [clumpScan] at h
    split at h
    · split at h
      · exact StepRes.noConfusion h
      · exact StepRes.noConfusion h
    · simpa using ih (updateFlag st _ true) e st2 h
    · injection h with h1 h2
      rw [← h2]

/-- A negated-clump abort hands back a state whose rest list is the one the
scan started from. -/
theorem negScan_err_rest (reg : Registry) :
    ∀ (cs : Str) (st : PState) (e : Err) (st2 : PState),
      negScan reg cs st = .err e st2 → st2.rest = st.rest := by
  intro cs
  induction cs with
  | nil =>
    intro st e st2 h
    exact StepRes.noConfusion h
  | cons c cs ih =>
    intro st e st2 h
    simp only [negScan] at h
    split at h
    · injection h with h1 h2
      rw [← h2]
    · simpa using ih (updateFlag st _ false) e st2 h
    · injection h with h1 h2
      rw [← h2]

/-- Whenever classifying one token fails, the returned state carries exactly
the rest entries that were already accumulated. -/
theorem stepToken_err_rest (reg : Registry) (onRest : Option (Str → Bool → Bool))
    (st : PState) (tok : Str) (e : Err) (st2 : PState)
    (h : stepToken reg onRest st tok = .err e st2) : st2.rest = st.rest := by
  match tok with
  | [] => exact StepRes.noConfusion h
  | [c] => exact StepRes.noConfusion h
  | [a, b] =>
    simp only [stepToken] at h
    repeat' split at h
    all_goals
      first
        | exact StepRes.noConfusion h
        | (injection h with h1 h2; rw [← h2])
  | a :: b :: c :: cs =>
    simp only [stepToken] at h
    repeat' split at h
    all_goals
      first
        | exact StepRes.noConfusion h
        | (injection h with h1 h2; rw [← h2])
        | exact clumpScan_err_rest reg _ _ _ _ h
        | exact negScan_err_rest reg _ _ _ _ h

/-- C4: an error while classifying a token aborts the whole parse at that
token: the result is that error together with the state the failing token
produced, whatever tokens follow — so nothing after the failure point is
classified or delivered — and the returned rest entries are exactly those
accumulated before the failing token.  Deliveries already made by earlier
characters of the same clump remain applied, shown concretely: scanning
"-vz" with only flag v declared sets v true and then fails on z. -/
theorem c4_error_aborts_parse (reg : Registry)
    (onRest : Option (Str → Bool → Bool)) (st : PState) (tok : Str)
    (e : Err) (st2 : PState)
    (h : stepToken reg onRest st tok = .err e st2) :
    (∀ args : List Str,
      argParseAux reg onRest (tok :: args) none st = (st2, some e)) ∧
    st2.rest = st.rest ∧
    stepToken regV none stV ['-', 'v', 'z'] =
      .err (.unrecognizedShort 'z') (updateFlag stV 0 true) := by
  refine ⟨?_, stepToken_err_rest reg onRest st tok e st2 h, by decide⟩
  intro args
  simp only [argParseAux, h]

/-- Witness for C4: with only flag v declared, the token "-z" fails with
UnrecognizedShortOption z, the following token "-v" is never processed, and
no rest entry is produced. -/
theorem c4_error_aborts_parse_witness :
    argParseAux regV none [['-', 'z'], ['-', 'v']] none stV =
      (stV, some (.unrecognizedShort 'z')) :=
  (c4_error_aborts_parse regV none stV ['-', 'z'] (.unrecognizedShort 'z') stV
    (by decide)).1 [['-', 'v']]

/-- Scanning a negated clump past a prefix of characters that all resolve to
flags delivers false to each of them in order and continues with the rest of
the characters. -/
theorem negScan_append (reg : Registry) (pre : Str) :
    ∀ (tail : Str) (st : PState),
      (∀ a ∈ pre, ∃ i, lookupShort reg a = some (.flagH i)) →
      negScan reg (pre ++ tail) st = negScan reg tail (applyNegAll reg st pre) := by
  induction pre with
  | nil =>
    intro tail st h
    simp [applyNegAll]
  | cons c cs ih =>
    intro tail st h
    obtain ⟨i, hi⟩ := h c (List.mem_cons_self c cs)
    have hcs : ∀ a ∈ cs, ∃ j, lookupShort reg a = some (.flagH j) :=
      fun a ha => h a (List.mem_cons_of_mem c ha)
    rw [List.cons_append]
    simp only [negScan, hi]
    rw [ih tail (updateFlag st i false) hcs]
    congr 1
    simp [applyNegAll, hi]

/-- A token starting with '+' followed by at least one character behaves as
the negated-clump scan of the characters after the '+': the two-character
case of the source (lines 334-343) acts exactly like one step of the
clump-negation loop (lines 407-419). -/
theorem stepToken_plus (reg : Registry) (onRest : Option (Str → Bool → Bool))
    (st : PState) (ds : Str) (hds : ds ≠ []) :
    stepToken reg onRest st ('+' :: ds) = negScan reg ds st := by
  have hpm : ('+' : Char) ≠ '-' := by decide
  match ds with
  | [] => exact absurd rfl hds
  | [b] =>
    cases hl : lookupShort reg b with
    | none => simp [stepToken, negScan, hpm, hl]
    | some p =>
      cases p with
      | flagH i => simp [stepToken, negScan, hpm, hl]
      | optH i => simp [stepToken, negScan, hpm, hl]
  | b :: c :: cs => simp [stepToken, hpm]

/-- C8: for a negation token — '+' followed by one or more characters — the
characters are scanned left to right; every character resolving to a flag is
delivered false, and the scan reaches the end successfully exactly when all
of them do.  At the first character that is an argument-taking option the
parse fails with the negation error naming that character, and at the first
unknown character it fails with the unrecognized-short error; in both cases
the rest of the token is abandoned and only the flags before the failure
were delivered. -/
theorem c8_negation_clump (reg : Registry)
    (onRest : Option (Str → Bool → Bool)) (st : PState) :
    (∀ (pre : Str) (c : Char) (post : Str),
      (∀ a ∈ pre, ∃ i, lookupShort reg a = some (.flagH i)) →
      (lookupShort reg c = none →
        stepToken reg onRest st ('+' :: (pre ++ c :: post)) =
          .err (.unrecognizedShort c) (applyNegAll reg st pre)) ∧
      (∀ i, lookupShort reg c = some (.optH i) →
        stepToken reg onRest st ('+' :: (pre ++ c :: post)) =
          .err (.triedToNegateOptArg c) (applyNegAll reg st pre))) ∧
    (∀ cs : Str, cs ≠ [] →
      (∀ a ∈ cs, ∃ i, lookupShort reg a = some (.flagH i)) →
      stepToken reg onRest st ('+' :: cs) = .cont (applyNegAll reg st cs) none) := by
  constructor
  · intro pre c post hpre
    have hne : pre ++ c :: post ≠ [] := by simp
    rw [stepToken_plus reg onRest st _ hne,
      negScan_append reg pre (c :: post) st hpre]
    constructor
    · intro hc
      simp [negScan, hc]
    · intro i hi
      simp [negScan, hi]
  · intro cs hcs hall
    rw [stepToken_plus reg onRest st cs hcs]
    have h := negScan_append reg cs [] st hall
    simpa [negScan] using h

/-- Witness for C8: with flag v declared, "+v" delivers false to v; with
argument-taking option f declared, "+f" fails with the negation error
naming f and delivers nothing. -/
theorem c8_negation_clump_witness :
    stepToken regV none stV ['+', 'v'] = .cont (applyNegAll regV stV ['v']) none ∧
    stepToken regF none stF ['+', 'f'] =
      .err (.triedToNegateOptArg 'f') (applyNegAll regF stF []) := by
  constructor
  · refine (c8_negation_clump regV none stV).2 ['v'] (by decide) ?_
    intro a ha
    have hav : a = 'v' := by
      simpa using ha
    subst hav
    exact ⟨0, by decide⟩
  · refine ((c8_negation_clump regF none stF).1 [] 'f' [] ?_).2 0 (by decide)
    intro a ha
    exact absurd ha (List.not_mem_nil a)

/-- Splitting at the first '=' of a token built from an equals-free name,
an '=', and an arbitrary tail yields exactly that name and tail: the tail is
not re-split even if it contains further '=' characters. -/
theorem splitAtEq_append (name value : Str) (h : '=' ∉ name) :
    splitAtEq (name ++ '=' :: value) = some (name, value) := by
  induction name with
  | nil => simp [splitAtEq]
  | cons c cs ih =>
    have hc : c ≠ '=' := by
      intro hh
      exact h (hh ▸ List.mem_cons_self c cs)
    have hcs : '=' ∉ cs := fun hm => h (List.mem_cons_of_mem c hm)
    simp [splitAtEq, hc, ih hcs]

/-- parseFlagOpt recognises, case-insensitively, exactly the four spellings
of true and the four spellings of false, and everything else is the
invalid-boolean error naming the flag's long option. -/
theorem parseFlagOpt_eq_spellings (flag : Str) (v : Str) :
    parseFlagOpt flag v =
      (if v.map Char.toLower ∈ trueSpellings then .ok true
       else if v.map Char.toLower ∈ falseSpellings then .ok false
       else .error (.passedOptargToFlag flag)) := by
  have hf : List.map Char.toLower ['f'] = ['f'] := by decide
  have ht : List.map Char.toLower ['t'] = ['t'] := by decide
  have hy : List.map Char.toLower ['y'] = ['y'] := by decide
  have hn : List.map Char.toLower ['n'] = ['n'] := by decide
  have hno : List.map Char.toLower ['n', 'o'] = ['n', 'o'] := by decide
  have hyes : List.map Char.toLower ['y', 'e', 's'] = ['y', 'e', 's'] := by decide
  have htru : List.map Char.toLower ['t', 'r', 'u', 'e'] = ['t', 'r', 'u', 'e'] := by
    decide
  have hfls : List.map Char.toLower ['f', 'a', 'l', 's', 'e'] =
      ['f', 'a', 'l', 's', 'e'] := by decide
  simp only [parseFlagOpt, eqFold, hf, ht, hy, hn, hno, hyes, htru, hfls]
  generalize v.map Char.toLower = w
  by_cases c1 : w = ['f']
  · subst c1; rfl
  by_cases c2 : w = ['t']
  · subst c2; rfl
  by_cases c3 : w = ['y']
  · subst c3; rfl
  by_cases c4 : w = ['n']
  · subst c4; rfl
  by_cases c5 : w = ['n', 'o']
  · subst c5; rfl
  by_cases c6 : w = ['y', 'e', 's']
  · subst c6; rfl
  by_cases c7 : w = ['t', 'r', 'u', 'e']
  · subst c7; rfl
  by_cases c8 : w = ['f', 'a', 'l', 's', 'e']
  · subst c8; rfl
  simp [beq_iff_eq, trueSpellings, falseSpellings, c1, c2, c3, c4, c5, c6, c7, c8]

/-- A long token with an equals-free name before its first '=' is processed
by looking the name up: an option receives the part after the '=' directly,
a flag routes that part through parseFlagOpt, and an unknown name is the
unrecognized-long error. -/
theorem stepToken_long_eq (reg : Registry) (onRest : Option (Str → Bool → Bool))
    (st : PState) (name value : Str) (hname : '=' ∉ name) :
    stepToken reg onRest st ('-' :: '-' :: (name ++ '=' :: value)) =
      (match lookupLong reg name with
       | some (.optH i) => .cont (deliverOpt st i value) none
       | some (.flagH i) =>
         (match parseFlagOpt name value with
          | .ok b => .cont (updateFlag st i b) none
          | .error e => .err e st)
       | none => .err (.unrecognizedLong name) st) := by
  cases name with
  | nil => simp [stepToken, splitAtEq]
  | cons c cs =>
    have hsp := splitAtEq_append (c :: cs) value hname
    rw [List.cons_append] at hsp
    rw [List.cons_append]
    simp only [stepToken, hsp]
    simp

/-- C7: a token "--name=value" is split at its first '=' only — the value is
everything after that '=' and may itself contain '=' characters, which are
not re-split (value is arbitrary in the statement).  If the name resolves to
an argument-taking option the value is delivered directly, with no
awaiting-value state; if it resolves to a flag, the value is accepted
exactly when its lowercase form is one of t, y, yes, true (delivering true)
or f, n, no, false (delivering false), and any other spelling fails with the
invalid-boolean error naming the long option; an unknown name fails with the
unrecognized-long-option error. -/
theorem c7_long_with_equals (reg : Registry)
    (onRest : Option (Str → Bool → Bool)) (st : PState) (name value : Str)
    (hname : '=' ∉ name) :
    (∀ i, lookupLong reg name = some (.optH i) →
      stepToken reg onRest st ('-' :: '-' :: (name ++ '=' :: value)) =
        .cont (deliverOpt st i value) none) ∧
    (∀ i b, lookupLong reg name = some (.flagH i) →
      parseFlagOpt name value = .ok b →
      stepToken reg onRest st ('-' :: '-' :: (name ++ '=' :: value)) =
        .cont (updateFlag st i b) none) ∧
    (∀ i e, lookupLong reg name = some (.flagH i) →
      parseFlagOpt name value = .error e →
      stepToken reg onRest st ('-' :: '-' :: (name ++ '=' :: value)) =
        .err e st) ∧
    (lookupLong reg name = none →
      stepToken reg onRest st ('-' :: '-' :: (name ++ '=' :: value)) =
        .err (.unrecognizedLong name) st) ∧
    (∀ w : Str, parseFlagOpt name w =
      (if w.map Char.toLower ∈ trueSpellings then .ok true
       else if w.map Char.toLower ∈ falseSpellings then .ok false
       else .error (.passedOptargToFlag name))) := by
  have hL := stepToken_long_eq reg onRest st name value hname
  refine ⟨?_, ?_, ?_, ?_, fun w => parseFlagOpt_eq_spellings name w⟩
  · intro i hi
    rw [hL, hi]
  · intro i b hi hok
    rw [hL, hi]
    simp only [hok]
  · intro i e hi herr
    rw [hL, hi]
    simp only [herr]
  · intro hi
    rw [hL, hi]

/-- Witness for C7 at the concrete registry declaring flag verbose: the
token "--verbose=T" delivers true to the flag. -/
theorem c7_long_with_equals_witness :
    stepToken regV none stV
        ('-' :: '-' :: (['v', 'e', 'r', 'b', 'o', 's', 'e'] ++ '=' :: ['T'])) =
      .cont (updateFlag stV 0 true) none :=
  (c7_long_with_equals regV none stV ['v', 'e', 'r', 'b', 'o', 's', 'e'] ['T']
      (by decide)).2.1 0 true (by decide) (by rfl)

end Getopts
